import Mathlib

/-!
Shallow embedding of `src/CPU.py`: a memory bus (backing store), a cache with
counter-based eviction, and a small CPU executing comma-delimited string
instructions. Python dicts are modelled as insertion-ordered association
lists (Python ≥ 3.7 dict semantics: assignment to an existing key updates the
value in place keeping its position; assignment to a fresh key appends at the
end; iteration is in insertion order).
-/

/-- Python `dict.get(address, None)` on `MemoryBus.data_lines`: first (and,
for a dict, only) binding of the key. -/
def busGet (a : Int) : List (Int × Int) → Option Int
  | [] => none
  | (k, v) :: rest => if k = a then some v else busGet a rest

/-- Model of `self.data_lines[address] = data`: update in place if present,
else append (Python dict assignment). -/
def busSet (a v : Int) : List (Int × Int) → List (Int × Int)
  | [] => [(a, v)]
  | (k, w) :: rest => if k = a then (k, v) :: rest else (k, w) :: busSet a v rest

/-- Lookup in `Cache.cache_lines`: address ↦ (value, recency counter). -/
def cacheGet (a : Int) : List (Int × Int × Nat) → Option (Int × Nat)
  | [] => none
  | (k, vc) :: rest => if k = a then some vc else cacheGet a rest

/-- Model of `self.cache_lines[address] = (data, c)`: dict assignment on the
cache mapping. -/
def setEntry (a : Int) (vc : Int × Nat) : List (Int × Int × Nat) → List (Int × Int × Nat)
  | [] => [(a, vc)]
  | (k, w) :: rest => if k = a then (k, vc) :: rest else (k, w) :: setEntry a vc rest

/-- Model of `self.cache_lines.pop(key)`: remove the binding of `key`, all
other entries keep their order. -/
def popKey (a : Int) : List (Int × Int × Nat) → List (Int × Int × Nat)
  | [] => []
  | (k, w) :: rest => if k = a then rest else (k, w) :: popKey a rest

/-- Helper for `min(keys, key=...)`: fold keeping the current champion on
ties, so the first entry with the minimal counter wins (Python `min`
semantics over insertion-ordered keys). -/
def minKeyAux (k : Int) (c : Nat) : List (Int × Int × Nat) → Int
  | [] => k
  | (k1, _, c1) :: rest => if c1 < c then minKeyAux k1 c1 rest else minKeyAux k c rest

/-- Model of `min(self.cache_lines.keys(), key=lambda k: self.cache_lines[k][1])`.
On an empty dict Python raises `ValueError`; we return `none` there (the
eviction site only reaches this with a nonempty dict when capacity > 0). -/
def minCounterKey : List (Int × Int × Nat) → Option Int
  | [] => none
  | (k, _, c) :: rest => some (minKeyAux k c rest)

/-- Combined state of one `Cache` object and the `MemoryBus` it references. -/
structure Sys where
  capacity : Nat
  cache_lines : List (Int × Int × Nat)
  data_lines : List (Int × Int)
deriving Repr, DecidableEq

/-- What Python `Cache.read` returns: on a hit, the raw dict entry — the
`(value, counter)` tuple; on a miss, the bus value `data` or `None`. -/
inductive ReadResult where
  | pair : Int → Nat → ReadResult
  | val : Int → ReadResult
  | absent : ReadResult
deriving Repr, DecidableEq

/-- Model of `MemoryBus.read`. -/
def busRead (a : Int) (s : Sys) : Option Int := busGet a s.data_lines

/-- Model of `MemoryBus.write`. -/
def busWrite (a v : Int) (s : Sys) : Sys :=
  { s with data_lines := busSet a v s.data_lines }

/-- Increment of one entry's recency counter, the body of the
`for key in self.cache_lines` loop in `Cache.read`. -/
def incEntry (e : Int × Int × Nat) : Int × Int × Nat := (e.1, e.2.1, e.2.2 + 1)

/-- Body of the `for key in self.cache_lines: if key != address` loop in
`Cache.write`: increment every entry except the one at `a`. -/
def condIncEntry (a : Int) (e : Int × Int × Nat) : Int × Int × Nat :=
  if e.1 = a then e else incEntry e

/-- Eviction guard of `Cache.read`: the `if len(self.cache_lines) >=
self.capacity` block, popping the key with the minimal counter. -/
def evictIfFull (cap : Nat) (lines : List (Int × Int × Nat)) : List (Int × Int × Nat) :=
  if cap ≤ lines.length then
    match minCounterKey lines with
    | some k => popKey k lines
    | none => lines
  else lines

/-- Insertion step of `Cache.read`: `self.cache_lines[address] = (data, 0)`
followed by the increment loop over *all* entries, the new one included. -/
def insertAndTouch (a d : Int) (lines : List (Int × Int × Nat)) : List (Int × Int × Nat) :=
  (setEntry a (d, 0) lines).map incEntry

/-- Model of `Cache.read`, line by line from the source: hit returns the stored
tuple unchanged; miss consults the bus; a present bus value triggers
(when `len(cache_lines) >= capacity`) eviction of the entry whose counter
is minimal, then insertion with counter 0, then an increment of every
entry's counter — including the one just inserted. -/
def cacheRead (a : Int) (s : Sys) : ReadResult × Sys :=
  match cacheGet a s.cache_lines with
  | some (v, c) => (.pair v c, s)
  | none =>
    match busGet a s.data_lines with
    | none => (.absent, s)
    | some d =>
      (.val d, { s with cache_lines := insertAndTouch a d (evictIfFull s.capacity s.cache_lines) })

/-- Touch-on-write step of `Cache.write`: replace the resident entry by
`(data, 0)` and increment every other entry's counter. -/
def touchUpdate (a d : Int) (lines : List (Int × Int × Nat)) : List (Int × Int × Nat) :=
  (setEntry a (d, 0) lines).map (condIncEntry a)

/-- Model of `Cache.write`, second half: on a resident address,
`self.cache_lines[address] = (data, 0)` then the increment loop over every
*other* entry. -/
def cacheWrite (a d : Int) (s : Sys) : Sys :=
  let s1 := busWrite a d s
  match cacheGet a s1.cache_lines with
  | none => s1
  | some _ => { s1 with cache_lines := touchUpdate a d s1.cache_lines }

/-- One cache-level operation issued by a client. -/
inductive CacheOp where
  | read : Int → CacheOp
  | write : Int → Int → CacheOp
deriving Repr, DecidableEq

/-- State effect of one operation (`read` also returns a value; here we keep
the state component). -/
def applyOp (op : CacheOp) (s : Sys) : Sys :=
  match op with
  | .read a => (cacheRead a s).2
  | .write a v => cacheWrite a v s

/-- A whole operation sequence, first operation applied first. -/
def applyOps (ops : List CacheOp) (s : Sys) : Sys :=
  match ops with
  | [] => s
  | op :: rest => applyOps rest (applyOp op s)

/-- Model of `Cache.__init__`: empty cache over a given bus content. -/
def initSys (cap : Nat) (store : List (Int × Int)) : Sys :=
  { capacity := cap, cache_lines := [], data_lines := store }

/-- Model of `instruction.split(',')` on the character list: splitting on commas,
never empty, empty string yields `[[]]` (Python `''.split(',') == ['']`). -/
def splitCommaChars : List Char → List (List Char)
  | [] => [[]]
  | c :: rest =>
    match splitCommaChars rest with
    | [] => [[]]
    | g :: gs => if c = ',' then [] :: g :: gs else (c :: g) :: gs

/-- Model of `instruction.split(',')`. -/
def splitComma (s : String) : List String :=
  (splitCommaChars s.data).map (fun cs => String.mk cs)

/-- Decimal digit accumulator for `pyInt`; any non-digit character aborts. -/
def pyIntDigits (acc : Nat) : List Char → Option Nat
  | [] => some acc
  | c :: rest =>
    if c.isDigit then pyIntDigits (acc * 10 + (c.toNat - 48)) rest else none

/-- Python `int(...)` on the decimal literals this program feeds it
(optional leading minus sign, then at least one digit); `none` where `int`
raises `ValueError`. -/
def pyInt (s : String) : Option Int :=
  match s.data with
  | [] => none
  | '-' :: rest =>
    match rest with
    | [] => none
    | _ => (pyIntDigits 0 rest).map (fun n => -(n : Int))
  | l => (pyIntDigits 0 l).map (fun n => (n : Int))

/-- Python list indexing `l[i]`: non-negative indices from the front,
negative indices from the back, `none` = `IndexError`. -/
def pyIndex (l : List String) (i : Int) : Option String :=
  if 0 ≤ i then l.get? i.toNat
  else if 0 ≤ i + l.length then l.get? (i + l.length).toNat
  else none

/-- Model of `self.registers[name]`: `none` means Python raises `KeyError`. -/
def regGet (name : String) : List (String × Int) → Option Int
  | [] => none
  | (k, v) :: rest => if k = name then some v else regGet name rest

/-- Model of `self.registers[name] = v`: dict assignment — update in place if the
key exists, otherwise append a fresh binding. -/
def setReg (name : String) (v : Int) : List (String × Int) → List (String × Int)
  | [] => [(name, v)]
  | (k, w) :: rest => if k = name then (k, v) :: rest else (k, w) :: setReg name v rest

/-- State of one `CPU` object together with its cache/bus. -/
structure CPUState where
  registers : List (String × Int)
  PC : Int
  running : Bool
  instructions : List String
  cache : Sys
deriving Repr, DecidableEq

/-- Exceptions the Python code can raise during fetch/execute. -/
inductive ExecErr where
  | keyError : String → ExecErr
  | valueError : ExecErr
  | indexError : ExecErr
deriving Repr, DecidableEq

/-- Model of `CPU.execute_instruction` after `parts = instruction.split(',')`.
Evaluation order follows Python: tuple unpacking first (`ValueError` on an
arity mismatch), then the right-hand side left to right (`KeyError` on an
unknown source register before `int` parsing), then the assignment to the
destination — which silently creates an absent register. An opcode outside
the five known ones falls through all branches: a silent no-op. -/
def executeParts (parts : List String) (s : CPUState) : Except ExecErr CPUState :=
  let opcode := parts.headD ""
  if opcode = "HALT" then .ok { s with running := false }
  else if opcode = "ADDI" then
    match parts with
    | [_, dest, src, imm] =>
      match regGet src s.registers with
      | none => .error (.keyError src)
      | some v =>
        match pyInt imm with
        | none => .error .valueError
        | some n => .ok { s with registers := setReg dest (v + n) s.registers }
    | _ => .error .valueError
  else if opcode = "ADD" then
    match parts with
    | [_, dest, src1, src2] =>
      match regGet src1 s.registers with
      | none => .error (.keyError src1)
      | some v1 =>
        match regGet src2 s.registers with
        | none => .error (.keyError src2)
        | some v2 => .ok { s with registers := setReg dest (v1 + v2) s.registers }
    | _ => .error .valueError
  else if opcode = "J" then
    match parts with
    | [_, addr] =>
      match pyInt addr with
      | none => .error .valueError
      | some n => .ok { s with PC := n }
    | _ => .error .valueError
  else if opcode = "CACHE" then
    match parts with
    | [_, addr] =>
      match pyInt addr with
      | none => .error .valueError
      | some n => .ok { s with cache := (cacheRead n s.cache).2 }
    | _ => .error .valueError
  else .ok s

/-- Model of `CPU.execute_instruction`. -/
def executeInstruction (instruction : String) (s : CPUState) : Except ExecErr CPUState :=
  executeParts (splitComma instruction) s

/-- Model of `CPU.fetch_instruction`: if `PC < len(instructions)`, index the list
(Python indexing, so a deeply negative `PC` raises `IndexError`) and advance
`PC`; otherwise return `None`. -/
def fetchInstruction (s : CPUState) : Except ExecErr (Option (String × CPUState)) :=
  if s.PC < (s.instructions.length : Int) then
    match pyIndex s.instructions s.PC with
    | some instr => .ok (some (instr, { s with PC := s.PC + 1 }))
    | none => .error .indexError
  else .ok none

/-- Why the `run` loop stopped: `running` found false at the loop head, a
fetch past the end (`None`), or a fetched instruction that is falsy (the
empty string), which takes the `break` branch of `if instruction:`. -/
inductive StopReason where
  | halted : StopReason
  | exhausted : StopReason
  | emptyInstr : StopReason
deriving Repr, DecidableEq

/-- Model of `CPU.run`, fuelled: `none` = still running after `fuel` loop
iterations; `some (.error e)` = a Python exception propagated out of `run`;
`some (.ok (s, r))` = the loop exited in state `s` for reason `r`. -/
def runFuel : Nat → CPUState → Option (Except ExecErr (CPUState × StopReason))
  | 0, _ => none
  | fuel + 1, s =>
    if s.running then
      match fetchInstruction s with
      | .error e => some (.error e)
      | .ok none => some (.ok (s, .exhausted))
      | .ok (some (instr, s1)) =>
        if instr = "" then some (.ok (s1, .emptyInstr))
        else
          match executeInstruction instr s1 with
          | .error e => some (.error e)
          | .ok s2 => runFuel fuel s2
    else some (.ok (s, .halted))

/-- Model of `CPU.__init__` plus `load_instructions`: fixed register file R1–R3 at 0,
`PC = 0`, `running = True`. -/
def initCPU (instrs : List String) (cache : Sys) : CPUState :=
  { registers := [("R1", 0), ("R2", 0), ("R3", 0)]
  , PC := 0
  , running := true
  , instructions := instrs
  , cache := cache }

/-! Helper lemmas on the association-list dict model. -/

theorem busGet_busSet_self (a v : Int) (l : List (Int × Int)) :
    busGet a (busSet a v l) = some v := by
  induction l with
  | nil => simp [busGet, busSet]
  | cons hd tl ih =>
    obtain ⟨k, w⟩ := hd
    by_cases hk : k = a
    · simp [busGet, busSet, hk]
    · simp [busGet, busSet, hk, ih]

theorem busGet_busSet_other (a v k : Int) (l : List (Int × Int)) (h : k ≠ a) :
    busGet k (busSet a v l) = busGet k l := by
  induction l with
  | nil => simp [busGet, busSet, Ne.symm h]
  | cons hd tl ih =>
    obtain ⟨k1, w⟩ := hd
    by_cases hk : k1 = a
    · subst hk
      simp [busGet, busSet, Ne.symm h]
    · by_cases hk2 : k1 = k
      · simp [busGet, busSet, hk, hk2, h]
      · simp [busGet, busSet, hk, hk2, ih]

theorem cacheGet_eq_none_iff (a : Int) (l : List (Int × Int × Nat)) :
    cacheGet a l = none ↔ a ∉ l.map Prod.fst := by
  induction l with
  | nil => simp [cacheGet]
  | cons hd tl ih =>
    obtain ⟨k, vc⟩ := hd
    by_cases hk : k = a
    · subst hk
      simp [cacheGet]
    · simp only [cacheGet, if_neg hk, List.map_cons, List.mem_cons]
      rw [ih]
      constructor
      · intro h hc
        rcases hc with hc | hc
        · exact hk hc.symm
        · exact h hc
      · intro h hc
        exact h (Or.inr hc)

theorem setEntry_of_not_mem (a : Int) (vc : Int × Nat) (l : List (Int × Int × Nat))
    (h : a ∉ l.map Prod.fst) : setEntry a vc l = l ++ [(a, vc)] := by
  induction l with
  | nil => simp [setEntry]
  | cons hd tl ih =>
    obtain ⟨k, w⟩ := hd
    simp only [List.map_cons, List.mem_cons] at h
    push_neg at h
    simp [setEntry, Ne.symm h.1, ih h.2]

theorem setEntry_mem_of_ne (a : Int) (vc : Int × Nat) (l : List (Int × Int × Nat))
    (e : Int × Int × Nat) : e ∈ l → e.1 ≠ a → e ∈ setEntry a vc l := by
  induction l with
  | nil =>
    intro he _
    simp at he
  | cons hd tl ih =>
    intro he hne
    obtain ⟨k, w⟩ := hd
    rw [List.mem_cons] at he
    by_cases hk : k = a
    · subst hk
      rcases he with he | he
      · rw [he] at hne
        exact absurd rfl hne
      · simp [setEntry, he]
    · simp only [setEntry, if_neg hk, List.mem_cons]
      rcases he with he | he
      · exact Or.inl he
      · exact Or.inr (ih he hne)

theorem mem_setEntry (a : Int) (vc : Int × Nat) (l : List (Int × Int × Nat))
    (e : Int × Int × Nat) : e ∈ setEntry a vc l → e = (a, vc) ∨ e ∈ l := by
  induction l with
  | nil =>
    intro he
    simp [setEntry] at he
    exact Or.inl he
  | cons hd tl ih =>
    intro he
    obtain ⟨k, w⟩ := hd
    by_cases hk : k = a
    · subst hk
      simp only [setEntry, if_pos, List.mem_cons] at he
      rcases he with he | he
      · exact Or.inl he
      · exact Or.inr (List.mem_cons_of_mem _ he)
    · simp only [setEntry, if_neg hk, List.mem_cons] at he
      rcases he with he | he
      · exact Or.inr (by simp [he])
      · rcases ih he with h | h
        · exact Or.inl h
        · exact Or.inr (List.mem_cons_of_mem _ h)

theorem mem_setEntry_of_nodup (a : Int) (vc : Int × Nat) (l : List (Int × Int × Nat))
    (e : Int × Int × Nat) :
    (l.map Prod.fst).Nodup → e ∈ setEntry a vc l → e = (a, vc) ∨ (e ∈ l ∧ e.1 ≠ a) := by
  induction l with
  | nil =>
    intro _ he
    simp [setEntry] at he
    exact Or.inl he
  | cons hd tl ih =>
    intro hnd he
    obtain ⟨k, w⟩ := hd
    simp only [List.map_cons, List.nodup_cons] at hnd
    by_cases hk : k = a
    · subst hk
      simp only [setEntry, if_pos, List.mem_cons] at he
      rcases he with he | he
      · exact Or.inl he
      · refine Or.inr ⟨List.mem_cons_of_mem _ he, ?_⟩
        intro hc
        exact hnd.1 (hc ▸ List.mem_map_of_mem Prod.fst he)
    · simp only [setEntry, if_neg hk, List.mem_cons] at he
      rcases he with he | he
      · exact Or.inr ⟨by simp [he], by simp [he, hk]⟩
      · rcases ih hnd.2 he with h | h
        · exact Or.inl h
        · exact Or.inr ⟨List.mem_cons_of_mem _ h.1, h.2⟩

theorem cacheGet_setEntry_self (a : Int) (vc : Int × Nat) (l : List (Int × Int × Nat)) :
    cacheGet a (setEntry a vc l) = some vc := by
  induction l with
  | nil => simp [setEntry, cacheGet]
  | cons hd tl ih =>
    obtain ⟨k, w⟩ := hd
    by_cases hk : k = a
    · simp [setEntry, cacheGet, hk]
    · simp [setEntry, cacheGet, hk, ih]

theorem keys_setEntry_of_mem (a : Int) (vc : Int × Nat) (l : List (Int × Int × Nat))
    (h : a ∈ l.map Prod.fst) :
    (setEntry a vc l).map Prod.fst = l.map Prod.fst := by
  induction l with
  | nil => simp at h
  | cons hd tl ih =>
    obtain ⟨k, w⟩ := hd
    by_cases hk : k = a
    · simp [setEntry, hk]
    · simp only [List.map_cons, List.mem_cons] at h
      rcases h with h | h
      · exact absurd h.symm hk
      · simp [setEntry, hk, ih h]

theorem popKey_subset (a : Int) (l : List (Int × Int × Nat)) (e : Int × Int × Nat) :
    e ∈ popKey a l → e ∈ l := by
  induction l with
  | nil =>
    intro he
    simp [popKey] at he
  | cons hd tl ih =>
    intro he
    obtain ⟨k, w⟩ := hd
    by_cases hk : k = a
    · simp only [popKey, if_pos hk] at he
      exact List.mem_cons_of_mem _ he
    · simp only [popKey, if_neg hk, List.mem_cons] at he
      rcases he with he | he
      · simp [he]
      · exact List.mem_cons_of_mem _ (ih he)

theorem keys_popKey_sublist (a : Int) (l : List (Int × Int × Nat)) :
    ((popKey a l).map Prod.fst).Sublist (l.map Prod.fst) := by
  induction l with
  | nil => simp [popKey]
  | cons hd tl ih =>
    obtain ⟨k, w⟩ := hd
    by_cases hk : k = a
    · simp only [popKey, if_pos hk, List.map_cons]
      exact (List.Sublist.refl _).cons _
    · simp only [popKey, if_neg hk, List.map_cons]
      exact ih.cons₂ _

theorem length_popKey_of_mem (a : Int) (l : List (Int × Int × Nat)) :
    a ∈ l.map Prod.fst → (popKey a l).length + 1 = l.length := by
  induction l with
  | nil =>
    intro h
    simp at h
  | cons hd tl ih =>
    intro h
    obtain ⟨k, w⟩ := hd
    by_cases hk : k = a
    · simp [popKey, hk]
    · simp only [List.map_cons, List.mem_cons] at h
      rcases h with h | h
      · exact absurd h.symm hk
      · simp [popKey, hk, ih h]

theorem minKeyAux_mem (k : Int) (c : Nat) (l : List (Int × Int × Nat)) :
    minKeyAux k c l = k ∨ minKeyAux k c l ∈ l.map Prod.fst := by
  induction l generalizing k c with
  | nil => simp [minKeyAux]
  | cons hd tl ih =>
    obtain ⟨k1, v1, c1⟩ := hd
    simp only [minKeyAux, List.map_cons, List.mem_cons]
    by_cases hc : c1 < c
    · simp only [if_pos hc]
      rcases ih k1 c1 with h | h
      · exact Or.inr (Or.inl h)
      · exact Or.inr (Or.inr h)
    · simp only [if_neg hc]
      rcases ih k c with h | h
      · exact Or.inl h
      · exact Or.inr (Or.inr h)

theorem minCounterKey_mem (l : List (Int × Int × Nat)) (k : Int) :
    minCounterKey l = some k → k ∈ l.map Prod.fst := by
  cases l with
  | nil =>
    intro h
    simp [minCounterKey] at h
  | cons hd tl =>
    intro h
    obtain ⟨k1, v1, c1⟩ := hd
    simp only [minCounterKey, Option.some_inj] at h
    subst h
    rcases minKeyAux_mem k1 c1 tl with h | h
    · simp [h]
    · simp [List.mem_cons, h]

theorem cacheGet_map_inc (a : Int) (l : List (Int × Int × Nat)) :
    cacheGet a (l.map incEntry) = (cacheGet a l).map (fun vc => (vc.1, vc.2 + 1)) := by
  induction l with
  | nil => simp [cacheGet]
  | cons hd tl ih =>
    obtain ⟨k, v, c⟩ := hd
    by_cases hk : k = a
    · simp [cacheGet, incEntry, hk]
    · simp [cacheGet, incEntry, hk, ih]

theorem condIncEntry_self (a v : Int) (c : Nat) :
    condIncEntry a (a, v, c) = (a, v, c) := by
  simp [condIncEntry]

theorem condIncEntry_other (a k v : Int) (c : Nat) (h : k ≠ a) :
    condIncEntry a (k, v, c) = (k, v, c + 1) := by
  simp [condIncEntry, incEntry, h]

theorem cacheGet_map_condinc (a : Int) (l : List (Int × Int × Nat)) :
    cacheGet a (l.map (condIncEntry a)) = cacheGet a l := by
  induction l with
  | nil => simp [cacheGet]
  | cons hd tl ih =>
    obtain ⟨k, v, c⟩ := hd
    by_cases hk : k = a
    · subst hk
      rw [List.map_cons, condIncEntry_self]
      simp [cacheGet]
    · rw [List.map_cons, condIncEntry_other a k v c hk]
      simp [cacheGet, hk, ih]

theorem keys_map_condinc (a : Int) (l : List (Int × Int × Nat)) :
    (l.map (condIncEntry a)).map Prod.fst = l.map Prod.fst := by
  induction l with
  | nil => simp
  | cons hd tl ih =>
    obtain ⟨k, v, c⟩ := hd
    by_cases hk : k = a
    · subst hk
      simp [condIncEntry_self, ih]
    · simp [condIncEntry_other a k v c hk, ih]

theorem keys_map_inc (l : List (Int × Int × Nat)) :
    (l.map incEntry).map Prod.fst = l.map Prod.fst := by
  induction l with
  | nil => simp
  | cons hd tl ih =>
    obtain ⟨k, v, c⟩ := hd
    simp [incEntry, ih]

theorem regGet_setReg_self (name : String) (v : Int) (l : List (String × Int)) :
    regGet name (setReg name v l) = some v := by
  induction l with
  | nil => simp [setReg, regGet]
  | cons hd tl ih =>
    obtain ⟨k, w⟩ := hd
    by_cases hk : k = name
    · simp [setReg, regGet, hk]
    · simp [setReg, regGet, hk, ih]

/-! Facts about the eviction and insertion pipelines. -/

theorem evictIfFull_subset (cap : Nat) (l : List (Int × Int × Nat)) (e : Int × Int × Nat) :
    e ∈ evictIfFull cap l → e ∈ l := by
  intro he
  unfold evictIfFull at he
  by_cases hfull : cap ≤ l.length
  · rw [if_pos hfull] at he
    cases hmin : minCounterKey l with
    | none =>
      rw [hmin] at he
      exact he
    | some k =>
      rw [hmin] at he
      exact popKey_subset k l e he
  · rw [if_neg hfull] at he
    exact he

theorem evictIfFull_keys_sublist (cap : Nat) (l : List (Int × Int × Nat)) :
    ((evictIfFull cap l).map Prod.fst).Sublist (l.map Prod.fst) := by
  unfold evictIfFull
  by_cases hfull : cap ≤ l.length
  · rw [if_pos hfull]
    cases hmin : minCounterKey l with
    | none => exact List.Sublist.refl _
    | some k => exact keys_popKey_sublist k l
  · rw [if_neg hfull]

theorem evictIfFull_length (cap : Nat) (l : List (Int × Int × Nat))
    (hcap : 0 < cap) (hlen : l.length ≤ cap) :
    (evictIfFull cap l).length + 1 ≤ cap := by
  unfold evictIfFull
  by_cases hfull : cap ≤ l.length
  · rw [if_pos hfull]
    have hl : l.length = cap := Nat.le_antisymm hlen hfull
    cases l with
    | nil =>
      rw [List.length_nil] at hl
      omega
    | cons hd tl =>
      obtain ⟨k1, v1, c1⟩ := hd
      show (popKey (minKeyAux k1 c1 tl) ((k1, v1, c1) :: tl)).length + 1 ≤ cap
      have hmem : minKeyAux k1 c1 tl ∈ ((k1, v1, c1) :: tl).map Prod.fst := by
        rcases minKeyAux_mem k1 c1 tl with h | h
        · simp [h]
        · simp [List.mem_cons, h]
      have := length_popKey_of_mem (minKeyAux k1 c1 tl) ((k1, v1, c1) :: tl) hmem
      omega
  · rw [if_neg hfull]
    omega

theorem mem_insertAndTouch (a d : Int) (l : List (Int × Int × Nat)) (e : Int × Int × Nat) :
    e ∈ insertAndTouch a d l → e = (a, d, 1) ∨ ∃ e1 ∈ l, e = incEntry e1 := by
  intro he
  unfold insertAndTouch at he
  rw [List.mem_map] at he
  obtain ⟨e1, he1, heq⟩ := he
  rcases mem_setEntry a (d, 0) l e1 he1 with h | h
  · subst h
    exact Or.inl heq.symm
  · exact Or.inr ⟨e1, h, heq.symm⟩

theorem cacheGet_insertAndTouch_self (a d : Int) (l : List (Int × Int × Nat)) :
    cacheGet a (insertAndTouch a d l) = some (d, 1) := by
  unfold insertAndTouch
  rw [cacheGet_map_inc, cacheGet_setEntry_self]
  rfl

theorem insertAndTouch_keys (a d : Int) (l : List (Int × Int × Nat))
    (h : a ∉ l.map Prod.fst) :
    (insertAndTouch a d l).map Prod.fst = l.map Prod.fst ++ [a] := by
  unfold insertAndTouch
  rw [keys_map_inc, setEntry_of_not_mem a (d, 0) l h]
  simp

theorem insertAndTouch_length (a d : Int) (l : List (Int × Int × Nat))
    (h : a ∉ l.map Prod.fst) :
    (insertAndTouch a d l).length = l.length + 1 := by
  have h1 := insertAndTouch_keys a d l h
  have h2 : ((insertAndTouch a d l).map Prod.fst).length = (l.map Prod.fst ++ [a]).length := by
    rw [h1]
  simpa using h2

/-! The reachable-state invariant: distinct keys, bounded size, coherence
with the backing store. -/

/-- Coherence of the cache with the backing store: every resident entry's
value is what the store currently holds at its address. -/
def coherent (s : Sys) : Prop :=
  ∀ e ∈ s.cache_lines, busRead e.1 s = some e.2.1

instance (s : Sys) : Decidable (coherent s) := by
  unfold coherent
  infer_instance

/-- Invariant carried through every reachable state: keys are distinct (a
dict), the size bound, and store coherence. -/
def SysInv (s : Sys) : Prop :=
  (s.cache_lines.map Prod.fst).Nodup ∧ s.cache_lines.length ≤ s.capacity ∧ coherent s

theorem sysInv_cacheRead (a : Int) (s : Sys) (hcap : 0 < s.capacity) (h : SysInv s) :
    SysInv (cacheRead a s).2 ∧ (cacheRead a s).2.capacity = s.capacity := by
  obtain ⟨hnd, hlen, hcoh⟩ := h
  cases hget : cacheGet a s.cache_lines with
  | some vc =>
    obtain ⟨v, c⟩ := vc
    simp only [cacheRead, hget]
    exact ⟨⟨hnd, hlen, hcoh⟩, trivial⟩
  | none =>
    cases hbus : busGet a s.data_lines with
    | none =>
      simp only [cacheRead, hget, hbus]
      exact ⟨⟨hnd, hlen, hcoh⟩, trivial⟩
    | some d =>
      simp only [cacheRead, hget, hbus]
      have hnotmem : a ∉ s.cache_lines.map Prod.fst := (cacheGet_eq_none_iff a _).mp hget
      have hnotmem1 : a ∉ (evictIfFull s.capacity s.cache_lines).map Prod.fst := by
        intro hc
        exact hnotmem ((evictIfFull_keys_sublist s.capacity s.cache_lines).subset hc)
      have hnd1 : ((evictIfFull s.capacity s.cache_lines).map Prod.fst).Nodup :=
        hnd.sublist (evictIfFull_keys_sublist s.capacity s.cache_lines)
      refine ⟨⟨?_, ?_, ?_⟩, trivial⟩
      · rw [insertAndTouch_keys a d _ hnotmem1, List.nodup_append]
        exact ⟨hnd1, List.nodup_singleton a, fun x hx hxa => by
          rw [List.mem_singleton] at hxa
          exact hnotmem1 (hxa ▸ hx)⟩
      · have hev := evictIfFull_length s.capacity s.cache_lines hcap hlen
        show (insertAndTouch a d (evictIfFull s.capacity s.cache_lines)).length ≤ s.capacity
        rw [insertAndTouch_length a d _ hnotmem1]
        omega
      · intro e he
        rcases mem_insertAndTouch a d _ e he with heq | ⟨e1, he1, heq⟩
        · subst heq
          exact hbus
        · subst heq
          exact hcoh e1 (evictIfFull_subset s.capacity s.cache_lines e1 he1)

theorem cacheGet_touchUpdate_self (a d : Int) (l : List (Int × Int × Nat)) :
    cacheGet a (touchUpdate a d l) = some (d, 0) := by
  unfold touchUpdate
  rw [cacheGet_map_condinc, cacheGet_setEntry_self]

theorem touchUpdate_keys (a d : Int) (l : List (Int × Int × Nat))
    (h : a ∈ l.map Prod.fst) :
    (touchUpdate a d l).map Prod.fst = l.map Prod.fst := by
  unfold touchUpdate
  rw [keys_map_condinc, keys_setEntry_of_mem a (d, 0) l h]

theorem mem_touchUpdate (a d : Int) (l : List (Int × Int × Nat)) (e : Int × Int × Nat)
    (hnd : (l.map Prod.fst).Nodup) :
    e ∈ touchUpdate a d l → e = (a, d, 0) ∨ ∃ e1, e1 ∈ l ∧ e1.1 ≠ a ∧ e = incEntry e1 := by
  intro he
  unfold touchUpdate at he
  rw [List.mem_map] at he
  obtain ⟨e1, he1, heq⟩ := he
  rcases mem_setEntry_of_nodup a (d, 0) l e1 hnd he1 with h | ⟨h1, h2⟩
  · subst h
    left
    rw [← heq]
    simp [condIncEntry]
  · right
    refine ⟨e1, h1, h2, ?_⟩
    rw [← heq]
    obtain ⟨k, v, c⟩ := e1
    exact (condIncEntry_other a k v c h2).trans (by simp [incEntry])

theorem sysInv_cacheWrite (a d : Int) (s : Sys) (h : SysInv s) :
    SysInv (cacheWrite a d s) ∧ (cacheWrite a d s).capacity = s.capacity := by
  obtain ⟨hnd, hlen, hcoh⟩ := h
  cases hget : cacheGet a s.cache_lines with
  | none =>
    simp only [cacheWrite, busWrite, hget]
    refine ⟨⟨hnd, hlen, ?_⟩, trivial⟩
    intro e he
    have hne : e.1 ≠ a := by
      intro hc
      exact (cacheGet_eq_none_iff a _).mp hget (hc ▸ List.mem_map_of_mem Prod.fst he)
    unfold busRead
    simp only
    rw [busGet_busSet_other a d e.1 s.data_lines hne]
    exact hcoh e he
  | some vc =>
    simp only [cacheWrite, busWrite, hget]
    have hmem : a ∈ s.cache_lines.map Prod.fst := by
      by_contra hc
      rw [← cacheGet_eq_none_iff a s.cache_lines] at hc
      rw [hget] at hc
      cases hc
    refine ⟨⟨?_, ?_, ?_⟩, trivial⟩
    · show ((touchUpdate a d s.cache_lines).map Prod.fst).Nodup
      rw [touchUpdate_keys a d _ hmem]
      exact hnd
    · show (touchUpdate a d s.cache_lines).length ≤ s.capacity
      have h1 : ((touchUpdate a d s.cache_lines).map Prod.fst).length
          = (s.cache_lines.map Prod.fst).length := by
        rw [touchUpdate_keys a d _ hmem]
      simpa using h1.trans_le (by simpa using hlen)
    · intro e he
      rcases mem_touchUpdate a d s.cache_lines e hnd he with heq | ⟨e1, he1, hne, heq⟩
      · subst heq
        unfold busRead
        simp only
        exact busGet_busSet_self a d s.data_lines
      · subst heq
        unfold busRead
        simp only
        obtain ⟨k, v, c⟩ := e1
        simp only [incEntry]
        rw [busGet_busSet_other a d k s.data_lines hne]
        exact hcoh (k, v, c) he1

theorem sysInv_applyOp (op : CacheOp) (s : Sys) (hcap : 0 < s.capacity) (h : SysInv s) :
    SysInv (applyOp op s) ∧ (applyOp op s).capacity = s.capacity := by
  cases op with
  | read a => exact sysInv_cacheRead a s hcap h
  | write a v => exact sysInv_cacheWrite a v s h

theorem sysInv_applyOps (ops : List CacheOp) (s : Sys) (hcap : 0 < s.capacity)
    (h : SysInv s) :
    SysInv (applyOps ops s) ∧ (applyOps ops s).capacity = s.capacity := by
  induction ops generalizing s with
  | nil => exact ⟨h, rfl⟩
  | cons op rest ih =>
    obtain ⟨h1, h2⟩ := sysInv_applyOp op s hcap h
    obtain ⟨h3, h4⟩ := ih (applyOp op s) (h2 ▸ hcap) h1
    exact ⟨h3, h4.trans h2⟩

theorem sysInv_init (cap : Nat) (store : List (Int × Int)) : SysInv (initSys cap store) := by
  refine ⟨by simp [initSys], by simp [initSys], ?_⟩
  intro e he
  simp [initSys] at he

/-! Facts about the fetch/run loop. -/

theorem fetch_ok_none (s : CPUState) (h : fetchInstruction s = .ok none) :
    (s.instructions.length : Int) ≤ s.PC := by
  unfold fetchInstruction at h
  by_cases hpc : s.PC < (s.instructions.length : Int)
  · rw [if_pos hpc] at h
    cases hi : pyIndex s.instructions s.PC with
    | some instr =>
      rw [hi] at h
      simp at h
    | none =>
      rw [hi] at h
      simp at h
  · omega

theorem fetch_ok_some (s : CPUState) (instr : String) (s1 : CPUState)
    (h : fetchInstruction s = .ok (some (instr, s1))) :
    s.PC < (s.instructions.length : Int) ∧ pyIndex s.instructions s.PC = some instr ∧
      s1 = { s with PC := s.PC + 1 } := by
  unfold fetchInstruction at h
  by_cases hpc : s.PC < (s.instructions.length : Int)
  · rw [if_pos hpc] at h
    cases hi : pyIndex s.instructions s.PC with
    | some i =>
      rw [hi] at h
      simp only [Except.ok.injEq, Option.some.injEq, Prod.mk.injEq] at h
      obtain ⟨hinstr, hstate⟩ := h
      subst hinstr
      exact ⟨hpc, rfl, hstate.symm⟩
    | none =>
      rw [hi] at h
      simp at h
  · rw [if_neg hpc] at h
    simp at h

theorem runFuel_stop_reasons (fuel : Nat) (s : CPUState)
    (res : Except ExecErr (CPUState × StopReason)) (h : runFuel fuel s = some res) :
    (∃ e, res = .error e) ∨
    (∃ s1, res = .ok (s1, .halted) ∧ s1.running = false) ∨
    (∃ s1, res = .ok (s1, .exhausted) ∧ s1.running = true ∧
      (s1.instructions.length : Int) ≤ s1.PC) ∨
    (∃ s1, res = .ok (s1, .emptyInstr) ∧ s1.running = true ∧
      pyIndex s1.instructions (s1.PC - 1) = some "") := by
  induction fuel generalizing s res with
  | zero => simp [runFuel] at h
  | succ fuel ih =>
    rw [runFuel] at h
    cases hrun : s.running with
    | false =>
      rw [hrun] at h
      simp only [Bool.false_eq_true, if_false, Option.some.injEq] at h
      subst h
      exact Or.inr (Or.inl ⟨s, rfl, hrun⟩)
    | true =>
      rw [hrun] at h
      simp only [if_true] at h
      cases hf : fetchInstruction s with
      | error e =>
        rw [hf] at h
        simp only [Option.some.injEq] at h
        exact Or.inl ⟨e, h.symm⟩
      | ok o =>
        cases o with
        | none =>
          rw [hf] at h
          simp only [Option.some.injEq] at h
          subst h
          exact Or.inr (Or.inr (Or.inl ⟨s, rfl, hrun, fetch_ok_none s hf⟩))
        | some p =>
          obtain ⟨instr, s1⟩ := p
          rw [hf] at h
          simp only [] at h
          obtain ⟨hpc, hidx, hs1⟩ := fetch_ok_some s instr s1 hf
          by_cases hi : instr = ""
          · rw [if_pos hi] at h
            simp only [Option.some.injEq] at h
            subst h
            refine Or.inr (Or.inr (Or.inr ⟨s1, rfl, ?_, ?_⟩))
            · rw [hs1]
              exact hrun
            · rw [hs1]
              simp only [Int.add_sub_cancel]
              rw [hidx, ← hi]
          · rw [if_neg hi] at h
            cases he : executeInstruction instr s1 with
            | error e =>
              rw [he] at h
              simp only [Option.some.injEq] at h
              exact Or.inl ⟨e, h.symm⟩
            | ok s2 =>
              rw [he] at h
              exact ih s2 res h

/-! Claim theorems. -/

/-- C1 (violated by the code): at a full cache, the read-miss eviction pops
the entry with the *minimum* recency counter — here address 2 with counter 1
is evicted while address 1 holds the maximal counter 2 and survives — so the
evicted entry's counter is not ≥ every other resident counter. -/
theorem claim_eviction_picks_minimum :
    (applyOps [CacheOp.read 1, CacheOp.read 2] (initSys 2 [(1, 10), (2, 20), (3, 30)])).cache_lines
      = [(1, 10, 2), (2, 20, 1)] ∧
    minCounterKey [(1, 10, 2), (2, 20, 1)] = some 2 ∧
    (cacheRead 3 (applyOps [CacheOp.read 1, CacheOp.read 2]
        (initSys 2 [(1, 10), (2, 20), (3, 30)]))).2.cache_lines
      = [(1, 10, 3), (3, 30, 1)] ∧
    cacheGet 2 (cacheRead 3 (applyOps [CacheOp.read 1, CacheOp.read 2]
        (initSys 2 [(1, 10), (2, 20), (3, 30)]))).2.cache_lines = none := by
  refine ⟨rfl, rfl, rfl, rfl⟩

/-- C2 (violated by the code): a hit on resident address 1 returns the raw
`(value, counter)` tuple — `.pair 42 2`, not the value 42 — and leaves the
entire cache state unchanged: no counter reset, no increments. -/
theorem claim_hit_returns_pair :
    cacheRead 1 (applyOps [CacheOp.read 1, CacheOp.read 2] (initSys 2 [(1, 42), (2, 7)]))
      = (ReadResult.pair 42 2,
         applyOps [CacheOp.read 1, CacheOp.read 2] (initSys 2 [(1, 42), (2, 7)])) := by
  rfl

/-- C3 counterexample: on the spec's own Scenario A input (store 1 ↦ 42,
capacity 1) the fresh entry ends with counter 1, not 0 — the increment loop
after insertion covers the entry just inserted. -/
theorem claim_insert_counter_counterexample :
    (cacheRead 1 (initSys 1 [(1, 42)])).2.cache_lines = [(1, 42, 1)] ∧
    cacheGet 1 (cacheRead 1 (initSys 1 [(1, 42)])).2.cache_lines ≠ some (42, 0) := by
  refine ⟨rfl, by decide⟩

/-- C3 (amended): a read miss for which the store holds `d` returns `d`,
leaves the new entry resident with counter exactly 1 (not 0), and every other
entry of the resulting cache is a pre-insertion resident with its counter
incremented by exactly 1. -/
theorem claim_read_miss_insert (s : Sys) (a d : Int)
    (hmiss : cacheGet a s.cache_lines = none) (hstore : busGet a s.data_lines = some d) :
    (cacheRead a s).1 = .val d ∧
    cacheGet a (cacheRead a s).2.cache_lines = some (d, 1) ∧
    ∀ e ∈ (cacheRead a s).2.cache_lines, e.1 ≠ a →
      ∃ c0, e.2.2 = c0 + 1 ∧ (e.1, e.2.1, c0) ∈ s.cache_lines := by
  simp only [cacheRead, hmiss, hstore]
  refine ⟨trivial, cacheGet_insertAndTouch_self a d _, ?_⟩
  intro e he hne
  rcases mem_insertAndTouch a d _ e he with heq | ⟨e1, he1, heq⟩
  · rw [heq] at hne
    exact absurd rfl hne
  · obtain ⟨k, v, c⟩ := e1
    subst heq
    exact ⟨c, rfl, evictIfFull_subset s.capacity s.cache_lines (k, v, c) he1⟩

/-- Witness for C3: concrete instance of the amended read-miss theorem. -/
theorem claim_read_miss_insert_witness :
    cacheGet 1 (initSys 1 [(1, 42)]).cache_lines = none ∧
    busGet 1 (initSys 1 [(1, 42)]).data_lines = some 42 ∧
    cacheGet 1 (cacheRead 1 (initSys 1 [(1, 42)])).2.cache_lines = some (42, 1) :=
  ⟨by decide, by decide,
    (claim_read_miss_insert (initSys 1 [(1, 42)]) 1 42 (by decide) (by decide)).2.1⟩

/-- C4 counterexample: an ADD whose *destination* register R4 is outside
{R1, R2, R3} does not fail — it silently creates the binding R4 ↦ 0 in the
register dict. -/
theorem claim_unknown_register_counterexample :
    executeInstruction "ADD,R4,R1,R2" (initCPU ["ADD,R4,R1,R2"] (initSys 4 []))
      = .ok { initCPU ["ADD,R4,R1,R2"] (initSys 4 []) with
              registers := [("R1", 0), ("R2", 0), ("R3", 0), ("R4", 0)] } := by
  rfl

/-- C4 (amended): an unknown *source* register in ADD/ADDI raises the
`KeyError` (the `UnknownRegisterError` of the spec) and any execute error
propagates out of `run`; an unknown *destination* register with known
sources succeeds and creates a fresh register binding. -/
theorem claim_unknown_register_amended
    (s : CPUState) (dest src imm other : String) (v1 : Int)
    (hsrc : regGet src s.registers = none)
    (hother : regGet other s.registers = some v1) :
    executeParts ["ADDI", dest, src, imm] s = .error (.keyError src) ∧
    executeParts ["ADD", dest, src, other] s = .error (.keyError src) ∧
    executeParts ["ADD", dest, other, src] s = .error (.keyError src) ∧
    (∀ n, pyInt imm = some n →
      executeParts ["ADDI", dest, other, imm] s
        = .ok { s with registers := setReg dest (v1 + n) s.registers } ∧
      regGet dest (setReg dest (v1 + n) s.registers) = some (v1 + n)) ∧
    (∀ fuel t t1 instr e, t.running = true →
      fetchInstruction t = .ok (some (instr, t1)) → instr ≠ "" →
      executeInstruction instr t1 = .error e →
      runFuel (fuel + 1) t = some (.error e)) := by
  refine ⟨?_, ?_, ?_, ?_, ?_⟩
  · simp [executeParts, hsrc]
  · simp [executeParts, hsrc]
  · simp [executeParts, hsrc, hother]
  · intro n hn
    constructor
    · simp [executeParts, hother, hn]
    · exact regGet_setReg_self dest (v1 + n) s.registers
  · intro fuel t t1 instr e hrun hf hi he
    rw [runFuel, hrun, if_pos rfl, hf]
    simp only []
    rw [if_neg hi, he]

/-- Witness for C4: concrete instance of the amended register theorem. -/
theorem claim_unknown_register_amended_witness :
    regGet "R4" (initCPU [] (initSys 4 [])).registers = none ∧
    regGet "R1" (initCPU [] (initSys 4 [])).registers = some 0 ∧
    executeParts ["ADD", "R9", "R4", "R1"] (initCPU [] (initSys 4 [])) = .error (.keyError "R4") :=
  ⟨by decide, by decide,
    (claim_unknown_register_amended (initCPU [] (initSys 4 [])) "R9" "R4" "5" "R1" 0
      (by decide) (by decide)).2.1⟩

/-- C5 counterexample: with the instruction sequence `["", "HALT"]`, the run
loop terminates via the `break` on a falsy (empty) fetched instruction —
the final state still has `running = true` and `PC = 1 < 2`, so it stopped
neither by HALT nor because fetch returned none. -/
theorem claim_run_stop_counterexample :
    runFuel 5 (initCPU ["", "HALT"] (initSys 4 []))
      = some (.ok ({ initCPU ["", "HALT"] (initSys 4 []) with PC := 1 },
          StopReason.emptyInstr)) ∧
    ({ initCPU ["", "HALT"] (initSys 4 []) with PC := 1 } : CPUState).running = true ∧
    ({ initCPU ["", "HALT"] (initSys 4 []) with PC := 1 } : CPUState).PC
      < (({ initCPU ["", "HALT"] (initSys 4 []) with PC := 1 } : CPUState).instructions.length : Int) := by
  refine ⟨rfl, rfl, by decide⟩

/-- C5 (amended): whenever the fuelled run loop stops, it stopped because a
Python exception propagated, because `running` was false (HALT), because
fetch returned none (`PC` at or past the end), or because the fetched
instruction was the falsy empty string. -/
theorem claim_run_stop_reasons (fuel : Nat) (s : CPUState)
    (res : Except ExecErr (CPUState × StopReason)) (h : runFuel fuel s = some res) :
    (∃ e, res = .error e) ∨
    (∃ s1, res = .ok (s1, .halted) ∧ s1.running = false) ∨
    (∃ s1, res = .ok (s1, .exhausted) ∧ s1.running = true ∧
      (s1.instructions.length : Int) ≤ s1.PC) ∨
    (∃ s1, res = .ok (s1, .emptyInstr) ∧ s1.running = true ∧
      pyIndex s1.instructions (s1.PC - 1) = some "") :=
  runFuel_stop_reasons fuel s res h

/-- Witness for C5: the amended stop-reason theorem applied to a concrete
halting program. -/
theorem claim_run_stop_reasons_witness :
    runFuel 2 (initCPU ["HALT"] (initSys 4 []))
      = some (.ok ({ initCPU ["HALT"] (initSys 4 []) with PC := 1, running := false },
          StopReason.halted)) ∧
    ((∃ e, (Except.ok ({ initCPU ["HALT"] (initSys 4 []) with PC := 1, running := false },
          StopReason.halted) : Except ExecErr (CPUState × StopReason)) = .error e) ∨
     (∃ s1, (Except.ok ({ initCPU ["HALT"] (initSys 4 []) with PC := 1, running := false },
          StopReason.halted) : Except ExecErr (CPUState × StopReason)) = .ok (s1, .halted) ∧
        s1.running = false) ∨
     (∃ s1, (Except.ok ({ initCPU ["HALT"] (initSys 4 []) with PC := 1, running := false },
          StopReason.halted) : Except ExecErr (CPUState × StopReason)) = .ok (s1, .exhausted) ∧
        s1.running = true ∧ (s1.instructions.length : Int) ≤ s1.PC) ∨
     (∃ s1, (Except.ok ({ initCPU ["HALT"] (initSys 4 []) with PC := 1, running := false },
          StopReason.halted) : Except ExecErr (CPUState × StopReason)) = .ok (s1, .emptyInstr) ∧
        s1.running = true ∧ pyIndex s1.instructions (s1.PC - 1) = some "")) :=
  ⟨rfl, claim_run_stop_reasons 2 (initCPU ["HALT"] (initSys 4 [])) _ rfl⟩

/-- C6: `Cache.write` always writes through (the store afterwards holds the
written value), leaves the cache untouched on a non-resident address, and on
a resident address updates the entry to `(value, 0)` while every other
resident entry's counter grows by exactly 1. -/
theorem claim_write_through (s : Sys) (a v : Int) :
    busRead a (cacheWrite a v s) = some v ∧
    (cacheGet a s.cache_lines = none → (cacheWrite a v s).cache_lines = s.cache_lines) ∧
    (∀ w c, cacheGet a s.cache_lines = some (w, c) →
      cacheGet a (cacheWrite a v s).cache_lines = some (v, 0) ∧
      ∀ k u c0, (k, u, c0) ∈ s.cache_lines → k ≠ a →
        (k, u, c0 + 1) ∈ (cacheWrite a v s).cache_lines) := by
  refine ⟨?_, ?_, ?_⟩
  · cases hget : cacheGet a s.cache_lines with
    | none =>
      simp only [cacheWrite, busWrite, hget]
      exact busGet_busSet_self a v s.data_lines
    | some vc =>
      simp only [cacheWrite, busWrite, hget]
      exact busGet_busSet_self a v s.data_lines
  · intro hget
    simp only [cacheWrite, busWrite, hget]
  · intro w c hget
    simp only [cacheWrite, busWrite, hget]
    refine ⟨cacheGet_touchUpdate_self a v s.cache_lines, ?_⟩
    intro k u c0 hmem hne
    have h1 : (k, u, c0) ∈ setEntry a (v, 0) s.cache_lines :=
      setEntry_mem_of_ne a (v, 0) s.cache_lines (k, u, c0) hmem hne
    have h2 := List.mem_map_of_mem (condIncEntry a) h1
    rw [condIncEntry_other a k u c0 hne] at h2
    exact h2

/-- Witness for C6: a concrete write-through instance on a resident entry. -/
theorem claim_write_through_witness :
    cacheGet 1 (applyOps [CacheOp.read 1] (initSys 2 [(1, 42)])).cache_lines = some (42, 1) ∧
    busRead 1 (cacheWrite 1 99 (applyOps [CacheOp.read 1] (initSys 2 [(1, 42)]))) = some 99 ∧
    cacheGet 1 (cacheWrite 1 99 (applyOps [CacheOp.read 1]
        (initSys 2 [(1, 42)]))).cache_lines = some (99, 0) :=
  ⟨by decide,
    (claim_write_through (applyOps [CacheOp.read 1] (initSys 2 [(1, 42)])) 1 99).1,
    ((claim_write_through (applyOps [CacheOp.read 1] (initSys 2 [(1, 42)])) 1 99).2.2 42 1
      (by decide)).1⟩

/-- C7: starting from the empty cache of any positive capacity, every state
reached by a sequence of reads and writes holds at most `capacity` entries. -/
theorem claim_capacity_invariant (cap : Nat) (store : List (Int × Int)) (ops : List CacheOp)
    (hcap : 0 < cap) :
    (applyOps ops (initSys cap store)).cache_lines.length ≤ cap := by
  obtain ⟨⟨_, hlen, _⟩, hcapEq⟩ :=
    sysInv_applyOps ops (initSys cap store) hcap (sysInv_init cap store)
  rw [hcapEq] at hlen
  exact hlen

/-- Witness for C7: the capacity bound at a concrete overfull workload. -/
theorem claim_capacity_invariant_witness :
    0 < 1 ∧
    (applyOps [CacheOp.read 1, CacheOp.read 2] (initSys 1 [(1, 42), (2, 7)])).cache_lines.length
      ≤ 1 :=
  ⟨by decide,
    claim_capacity_invariant 1 [(1, 42), (2, 7)] [CacheOp.read 1, CacheOp.read 2] (by decide)⟩

/-- C8: a read of an address neither cached nor held by the store returns the
absent value (no exception) and leaves the cache/store state exactly as it
was. -/
theorem claim_read_absent (s : Sys) (a : Int)
    (h1 : cacheGet a s.cache_lines = none) (h2 : busGet a s.data_lines = none) :
    cacheRead a s = (.absent, s) := by
  simp only [cacheRead, h1, h2]

/-- Witness for C8: reading the missing address 99 from a warm cache. -/
theorem claim_read_absent_witness :
    cacheGet 99 (applyOps [CacheOp.read 1] (initSys 2 [(1, 42)])).cache_lines = none ∧
    busGet 99 (applyOps [CacheOp.read 1] (initSys 2 [(1, 42)])).data_lines = none ∧
    cacheRead 99 (applyOps [CacheOp.read 1] (initSys 2 [(1, 42)]))
      = (ReadResult.absent, applyOps [CacheOp.read 1] (initSys 2 [(1, 42)])) :=
  ⟨by decide, by decide,
    claim_read_absent (applyOps [CacheOp.read 1] (initSys 2 [(1, 42)])) 99
      (by decide) (by decide)⟩

/-- C9 (Scenario B): the four-instruction program halts with R1 = 5, R2 = 0,
R3 = 5, program counter 3, `running = false`; the fourth instruction never
executes (R1 stays 5). -/
theorem claim_scenario_b :
    runFuel 10 (initCPU ["ADDI,R1,R2,5", "ADD,R3,R1,R2", "HALT", "ADDI,R1,R1,1"] (initSys 4 []))
      = some (.ok
          ({ registers := [("R1", 5), ("R2", 0), ("R3", 5)], PC := 3, running := false,
             instructions := ["ADDI,R1,R2,5", "ADD,R3,R1,R2", "HALT", "ADDI,R1,R1,1"],
             cache := initSys 4 [] }, StopReason.halted)) := by
  rfl

/-- C10: over any fixed initial store and any positive capacity, every cache
state reachable from the empty cache by reads and writes is coherent: each
resident entry's value equals what the store currently holds at its
address. -/
theorem claim_cache_store_coherence (cap : Nat) (store : List (Int × Int)) (ops : List CacheOp)
    (hcap : 0 < cap) : coherent (applyOps ops (initSys cap store)) :=
  (sysInv_applyOps ops (initSys cap store) hcap (sysInv_init cap store)).1.2.2

/-- Witness for C10: coherence of a concrete read/write workload that
overwrites a resident entry. -/
theorem claim_cache_store_coherence_witness :
    0 < 2 ∧
    coherent (applyOps [CacheOp.read 1, CacheOp.write 1 99, CacheOp.write 5 3, CacheOp.read 2]
      (initSys 2 [(1, 42), (2, 7)])) :=
  ⟨by decide,
    claim_cache_store_coherence 2 [(1, 42), (2, 7)]
      [CacheOp.read 1, CacheOp.write 1 99, CacheOp.write 5 3, CacheOp.read 2] (by decide)⟩
